import Mathlib

/-!
Verification of the selection-state logic of the `RangeCalendar` widget
(src/src/RangeCalendar.ts).

Dates are modelled at calendar-day granularity as integers counting days
since the Unix epoch (1970-01-01), which is exactly the quantity the
ECMAScript `Date` operations `MakeDay` / `Day(t)` compute; comparisons of
`Date` objects order by time value, which at day granularity is this
integer.  The Gregorian civil calendar conversion is implemented directly
from the leap-year and month-length rules that the ECMAScript specification
uses, with fuel-based structural recursion so that every definition
evaluates by kernel reduction.
-/

/-- Gregorian leap-year rule, as in ECMAScript `DaysInYear`. -/
def isLeap (y : ℤ) : Bool :=
  (y % 4 == 0) && (!(y % 100 == 0) || (y % 400 == 0))

/-- Number of days in year `y`. -/
def daysInYear (y : ℤ) : ℤ :=
  if isLeap y then 366 else 365

/-- Number of days in month `m` (0-based, JavaScript style) of year `y`. -/
def daysInMonthJS (y m : ℤ) : ℤ :=
  if m = 1 then (if isLeap y then 29 else 28)
  else if m = 3 ∨ m = 5 ∨ m = 8 ∨ m = 10 then 30
  else 31

/-- Days from the start of the year up to (excluding) 0-based month `n`. -/
def daysBeforeMonthAux (y : ℤ) : ℕ → ℤ
  | 0 => 0
  | n + 1 => daysBeforeMonthAux y n + daysInMonthJS y (n : ℤ)

/-- Days from the start of year `y` before 0-based month `m`. -/
def daysBeforeMonth (y m : ℤ) : ℤ :=
  daysBeforeMonthAux y m.toNat

/-- Days of the years 1970, 1971, … summed (`n` years). -/
def daysUpAux : ℕ → ℤ
  | 0 => 0
  | n + 1 => daysUpAux n + daysInYear (1970 + (n : ℤ))

/-- Negated sum of the days of the years 1969, 1968, … (`n` years). -/
def daysDownAux : ℕ → ℤ
  | 0 => 0
  | n + 1 => daysDownAux n - daysInYear (1969 - (n : ℤ))

/-- Day number of 1 January of year `y` (0 for 1970). -/
def daysBeforeYear (y : ℤ) : ℤ :=
  if 1970 ≤ y then daysUpAux (y - 1970).toNat else daysDownAux (1970 - y).toNat

/-- Day number of the civil date (`y`, 0-based month `m`, day-of-month `d`).
This is ECMAScript `MakeDay(y, m, d)` restricted to `0 ≤ m < 12`; note it is
linear in `d`, with no clamping, exactly as `MakeDay`. -/
def epochFromCivil (y m d : ℤ) : ℤ :=
  daysBeforeYear y + daysBeforeMonth y m + (d - 1)

/-- ECMAScript `MakeDay(y, m, d)` for arbitrary `m`: the month overflows
into the year (floor division / proper modulus). -/
def jsMakeDate (y m d : ℤ) : ℤ :=
  epochFromCivil (y + Int.fdiv m 12) (Int.emod m 12) d

/-- Find the year containing day offset `z ≥ 0` counted from 1 January of
year `y`, walking forward one year per fuel unit. -/
def yearUpF : ℕ → ℤ → ℤ → ℤ × ℤ
  | 0, y, z => (y, z)
  | f + 1, y, z =>
    if z < daysInYear y then (y, z) else yearUpF f (y + 1) (z - daysInYear y)

/-- Find the year containing a negative day offset `z` counted from
1 January of year `y`, walking backward one year per fuel unit. -/
def yearDownF : ℕ → ℤ → ℤ → ℤ × ℤ
  | 0, y, z => (y, z)
  | f + 1, y, z =>
    if 0 ≤ z then (y, z) else yearDownF f (y - 1) (z + daysInYear (y - 1))

/-- Find the month containing day offset `z` of year `y`, starting from
0-based month `m`, walking forward one month per fuel unit. -/
def monthUpF : ℕ → ℤ → ℤ → ℤ → ℤ × ℤ
  | 0, _, m, z => (m, z)
  | f + 1, y, m, z =>
    if z < daysInMonthJS y m then (m, z)
    else monthUpF f y (m + 1) (z - daysInMonthJS y m)

/-- The year containing day number `z`, with the remaining day offset
into that year (ECMAScript `YearFromTime` / `DayWithinYear`). -/
def toCivilYear (z : ℤ) : ℤ × ℤ :=
  if 0 ≤ z then yearUpF (z.toNat + 1) 1970 z
  else yearDownF ((-z).toNat + 1) 1970 z

/-- Civil date (year, 0-based month, day-of-month) of day number `z`;
this is ECMAScript `YearFromTime` / `MonthFromTime` / `DateFromTime`. -/
def toCivil (z : ℤ) : ℤ × ℤ × ℤ :=
  let p := toCivilYear z
  let q := monthUpF 12 p.1 0 p.2
  (p.1, q.1, q.2 + 1)

/-- JavaScript `date.getFullYear()`. -/
def yearOf (z : ℤ) : ℤ := (toCivil z).1

/-- JavaScript `date.getMonth()` (0-based). -/
def monthOf (z : ℤ) : ℤ := (toCivil z).2.1

/-- JavaScript `date.getDate()` (day of month, 1-based). -/
def dayOf (z : ℤ) : ℤ := (toCivil z).2.2

/-- JavaScript `date.getDay()`: 0 = Sunday … 6 = Saturday.  Day 0
(1970-01-01) was a Thursday, weekday 4. -/
def jsGetDay (z : ℤ) : ℤ := (z + 4) % 7

/-! ### Formatting (`formatDate`, `padStart`) -/

/-- JavaScript `String.prototype.padStart(n, c)`. -/
def padStart (s : String) (n : ℕ) (c : Char) : String :=
  if s.length < n then String.mk (List.replicate (n - s.length) c) ++ s else s

/-- Month abbreviations used by `formatDate` (source lines 703-706). -/
def monthNamesShort : List String :=
  ["Ene", "Feb", "Mar", "Abr", "May", "Jun",
   "Jul", "Ago", "Sep", "Oct", "Nov", "Dic"]

/-- `formatDate(date, format)` (source lines 696-730).  `d` is the date's
day number, `fmt` the resolved format (the source defaults the second
argument to `this.dateFormat`; callers here always pass the resolved one).
JavaScript indexing out of range yields `undefined`, hence the default. -/
def formatDate (d : ℤ) (fmt : String) : String :=
  let day := padStart (toString (dayOf d)) 2 '0'
  let month := monthNamesShort.getD (monthOf d).toNat "undefined"
  let numericMonth := padStart (toString (monthOf d + 1)) 2 '0'
  let year := toString (yearOf d)
  if fmt = "DD MMM YYYY" then day ++ " " ++ month ++ " " ++ year
  else if fmt = "YYYY-MM-DD" then year ++ "-" ++ numericMonth ++ "-" ++ day
  else if fmt = "DD/MM/YYYY" then day ++ "/" ++ numericMonth ++ "/" ++ year
  else if fmt = "MM/DD/YYYY" then numericMonth ++ "/" ++ day ++ "/" ++ year
  else if fmt = "YYYY/MM/DD" then year ++ "/" ++ numericMonth ++ "/" ++ day
  else year ++ "-" ++ numericMonth ++ "-" ++ day

/-! ### Engine state and the selection state machine -/

/-- The four selection modes (`type: SelectionType`). -/
inductive SelectionType where
  | rango
  | dia
  | semana
  | mes
deriving DecidableEq, Repr

/-- Events emitted by the engine.  A payload field holding
`this.startDate` / `this.endDate` is nullable, hence `Option ℤ`. -/
inductive CalEvent where
  | dateSelected (date : ℤ)
  | rangeSelected (startDate endDate : Option ℤ)
  | weekSelected (startDate endDate : Option ℤ)
  | monthSelected (startDate endDate : Option ℤ)
  | renderCompleted (startDate endDate : Option ℤ)
  | calendarOpened
  | calendarClosed
deriving DecidableEq, Repr

/-- The engine's data state (DOM handles and the tooltip configuration are
view collaborators and carry no selection state). -/
structure CalState where
  type : SelectionType
  minDays : ℤ
  maxDays : ℤ
  startDate : Option ℤ
  endDate : Option ℤ
  minDate : ℤ
  maxDate : ℤ
  dateFormat : String
  disabledDates : List ℤ
  disableWeekends : Bool
  dateSeparator : String
  fechaVacia : Bool
  placeholder : String
  selectedDates : List ℤ
  currentMonth : ℤ
  currentYear : ℤ
deriving DecidableEq, Repr

/-- Stable insertion used to model `Array.prototype.sort` with the
ascending time-value comparator `(a, b) => a.getTime() - b.getTime()`. -/
def insertByTime (x : ℤ) : List ℤ → List ℤ
  | [] => [x]
  | y :: ys => if x ≤ y then x :: y :: ys else y :: insertByTime x ys

/-- `selectedDates.sort((a, b) => a.getTime() - b.getTime())`: a stable
ascending sort by time value. -/
def sortByTime (l : List ℤ) : List ℤ :=
  l.foldr insertByTime []

/-- JavaScript `date.setDate(n)`: `MakeDay(YearFromTime(t),
MonthFromTime(t), n)` — the day-of-month is replaced by `n` with
normalization into neighbouring months. -/
def jsSetDate (d n : ℤ) : ℤ :=
  epochFromCivil (yearOf d) (monthOf d) n

/-- `getStartOfWeek` (source lines 618-622): back up to the ISO Monday.
In the source this mutates its argument via `date.setDate(diff)`. -/
def getStartOfWeek (date : ℤ) : ℤ :=
  let day := jsGetDay date
  let diff := dayOf date - day + (if day = 0 then -6 else 1)
  jsSetDate date diff

/-- `getEndOfWeek` (source lines 624-627): start of week plus
`6 * 24 * 60 * 60 * 1000` milliseconds, i.e. six days. -/
def getEndOfWeek (date : ℤ) : ℤ :=
  getStartOfWeek date + 6

/-- `selectDate(date)` (source lines 490-585), returning the updated state
and the list of events emitted by the call.  The `instanceof` and
`validateDate` guards always pass for a model date (every integer is a
valid normalized date), so the first effective guard is the bounds check.
`updateInput` and the container-hiding assignments are view effects. -/
def selectDate (s : CalState) (date : ℤ) : CalState × List CalEvent :=
  if date < s.minDate ∨ date > s.maxDate then (s, [])
  else
    match s.type with
    | .dia =>
      ({ s with selectedDates := [date], startDate := some date, endDate := none },
       [.dateSelected date])
    | .rango =>
      if s.selectedDates.length = 0 ∨ s.selectedDates.length = 2 then
        -- start a new pending range; `disableOutOfRangeDates` only edits
        -- CSS classes of grid cells
        ({ s with selectedDates := [date], startDate := some date, endDate := none },
         [])
      else if date < s.selectedDates.headI then
        -- `date < this.selectedDates[0]` — this branch has a non-empty
        -- selection, so index 0 is its head
        (s, [])
      else
        let ds := sortByTime (s.selectedDates ++ [date])
        ({ s with selectedDates := ds, startDate := ds[0]?, endDate := ds[1]? },
         [.rangeSelected ds[0]? ds[1]?])
    | .semana =>
      let startOfWeek := getStartOfWeek date
      -- `getStartOfWeek` has mutated `date` via `setDate`, so the
      -- subsequent `getEndOfWeek(date)` call sees the shifted value,
      -- which equals `startOfWeek`
      let endOfWeek := getEndOfWeek startOfWeek
      ({ s with selectedDates := [startOfWeek, endOfWeek],
                startDate := some startOfWeek, endDate := some endOfWeek },
       [.weekSelected (some startOfWeek) (some endOfWeek)])
    | .mes =>
      let startOfMonth := jsMakeDate (yearOf date) (monthOf date) 1
      let endOfMonth := jsMakeDate (yearOf date) (monthOf date + 1) 0
      let adjustedEndOfMonth := if endOfMonth > s.maxDate then s.maxDate else endOfMonth
      ({ s with selectedDates := [startOfMonth, adjustedEndOfMonth],
                startDate := some startOfMonth, endDate := some adjustedEndOfMonth },
       [.monthSelected (some startOfMonth) (some adjustedEndOfMonth)])

/-- `changeMonth(offset)` (source lines 463-480); `renderCalendar` emits
`renderCompleted` with the (unchanged) committed selection. -/
def changeMonth (s : CalState) (offset : ℤ) : CalState × List CalEvent :=
  let m := s.currentMonth + offset
  let s' :=
    if m < 0 then { s with currentMonth := 11, currentYear := s.currentYear - 1 }
    else if m > 11 then { s with currentMonth := 0, currentYear := s.currentYear + 1 }
    else { s with currentMonth := m }
  (s', [.renderCompleted s.startDate s.endDate])

/-- `changeYear(offset)` (source lines 907-910). -/
def changeYear (s : CalState) (offset : ℤ) : CalState × List CalEvent :=
  ({ s with currentYear := s.currentYear + offset },
   [.renderCompleted s.startDate s.endDate])

/-- `navigate(offset)` (source lines 224-230). -/
def navigate (s : CalState) (offset : ℤ) : CalState × List CalEvent :=
  if s.type = .mes then changeYear s offset else changeMonth s offset

/-- `clearSelection()` (source lines 735-739): resets `selectedDates` only;
`updateInput` and `renderCalendar` are view effects (the latter emits
`renderCompleted`). -/
def clearSelection (s : CalState) : CalState × List CalEvent :=
  ({ s with selectedDates := [] }, [.renderCompleted s.startDate s.endDate])

/-- `getSelectedDates()` (source lines 745-749). -/
def getSelectedDates (s : CalState) : Option String × Option String :=
  (s.selectedDates[0]?.map (fun d => formatDate d s.dateFormat),
   s.selectedDates[1]?.map (fun d => formatDate d s.dateFormat))

/-- `applyHighlightClasses` (source lines 282-321), per day cell: the CSS
highlight class the committed selection assigns to the cell with date
`cellDate`.  `normalizeDate` is the identity at day granularity.  Month
cells are keyed by (month, year) attributes, not by a day date, so the
`mes` branch assigns no class to day cells. -/
def highlightClass (s : CalState) (cellDate : ℤ) : Option String :=
  match s.startDate with
  | none => none
  | some sd =>
    if s.type = .dia then
      if cellDate = sd then some "highlight-start" else none
    else if s.type = .rango ∨ s.type = .semana then
      if cellDate = sd then some "highlight-start"
      else
        match s.endDate with
        | some ed =>
          if cellDate = ed then some "highlight-end"
          else if sd < cellDate ∧ cellDate < ed then some "highlight-range"
          else none
        | none => none
    else none

/-! ### Construction -/

/-- The constructor's option bag (`RangeCalendarOptions`); optional fields
are `Option`, mirroring `??` / `||` defaulting in the constructor. -/
structure CalOptions where
  type : SelectionType
  minDays : Option ℤ := none
  maxDays : Option ℤ := none
  startDate : Option ℤ := none
  endDate : Option ℤ := none
  minDate : ℤ
  maxDate : ℤ
  dateFormat : Option String := none
  disabledDates : Option (List ℤ) := none
  disableWeekends : Option Bool := none
  dateSeparator : Option String := none
  fechaVacia : Option Bool := none
  placeholder : Option String := none
deriving Repr

/-- `this.startDate && (this.startDate < this.minDate || this.startDate >
this.maxDate)` — a `Date` object is always truthy, `null` is falsy. -/
def presetOutOfBounds (d : Option ℤ) (lo hi : ℤ) : Bool :=
  match d with
  | none => false
  | some x => decide (x < lo) || decide (x > hi)

/-- The constructor (source lines 54-103).  A `throw` aborts construction,
modelled as `Except.error`; on success `init()` runs: `renderCalendar`
emits `renderCompleted` and `init` emits it once more.  `today` stands for
`new Date()` read for the initial view cursor. -/
def mkRangeCalendar (o : CalOptions) (today : ℤ) : Except String (CalState × List CalEvent) :=
  let minDays := o.minDays.getD 1
  let maxDays := o.maxDays.getD 30
  if minDays > maxDays then
    .error "minDays no puede ser mayor que maxDays."
  else if presetOutOfBounds o.startDate o.minDate o.maxDate then
    .error "startDate esta fuera del rango permitido."
  else if presetOutOfBounds o.endDate o.minDate o.maxDate then
    .error "endDate esta fuera del rango permitido."
  else
    let s : CalState :=
      { type := o.type
        minDays := minDays
        maxDays := maxDays
        startDate := o.startDate
        endDate := if o.type = .dia then none else o.endDate
        minDate := o.minDate
        maxDate := o.maxDate
        dateFormat := o.dateFormat.getD "YYYY-MM-DD"
        disabledDates := o.disabledDates.getD []
        disableWeekends := o.disableWeekends.getD false
        dateSeparator := o.dateSeparator.getD " - "
        fechaVacia := o.fechaVacia.getD true
        placeholder := o.placeholder.getD "Selecciona una fecha"
        selectedDates := []
        currentMonth := monthOf today
        currentYear := yearOf today }
    .ok (s, [.renderCompleted s.startDate s.endDate,
             .renderCompleted s.startDate s.endDate])

/-! ### Event dispatch (`on` / `emit`, source lines 133-160)

JavaScript object identity is modelled explicitly: a `Date` value carries
an allocation reference `ref : ℕ` besides its time value.  An allocation
counter `fresh` tracks the references handed out so far: every object the
engine or its caller holds has a reference `< fresh`, and `new Date(...)`
inside `emit` allocates references `≥ fresh`. -/

/-- A JSON-serializable payload field value. -/
inductive JsVal where
  | date (ref : ℕ) (time : ℤ)
  | str (s : String)
  | nullv
deriving DecidableEq, Repr

/-- An event payload: an object, as ordered (key, value) fields. -/
abbrev Payload := List (String × JsVal)

/-- ISO-8601 UTC string of a day-granularity time value, as
`Date.prototype.toISOString` produces for a midnight date. -/
def isoUtcString (t : ℤ) : String :=
  padStart (toString (yearOf t)) 4 '0' ++ "-" ++
  padStart (toString (monthOf t + 1)) 2 '0' ++ "-" ++
  padStart (toString (dayOf t)) 2 '0' ++ "T00:00:00.000Z"

/-- `JSON.parse(JSON.stringify(v))` on one field value: a `Date`
serializes to its ISO string (losing object identity), strings and `null`
survive unchanged. -/
def jsonRoundTrip (v : JsVal) : JsVal :=
  match v with
  | .date _ t => .str (isoUtcString t)
  | .str s => .str s
  | .nullv => .nullv

/-- The sanitizing copy made by `emit` (source lines 142-150): every field
goes through the JSON round trip, then truthy `startDate` / `endDate`
fields are re-wrapped as `new Date(...)` — fresh allocations (references
`fresh`, `fresh + 1`, … by field position) with the same time value. -/
def sanitizeFields (fresh : ℕ) : ℕ → Payload → Payload
  | _, [] => []
  | i, (k, v) :: rest =>
    (k,
      if k = "startDate" ∨ k = "endDate" then
        match v with
        | .date _ t => .date (fresh + i) t
        | w => jsonRoundTrip w
      else jsonRoundTrip v) :: sanitizeFields fresh (i + 1) rest

/-- `sanitizedData` as computed once by `emit` before the delivery loop. -/
def sanitizePayload (fresh : ℕ) (data : Payload) : Payload :=
  sanitizeFields fresh 0 data

/-- The `Date` object references appearing in a payload. -/
def payloadRefs : Payload → List ℕ
  | [] => []
  | (_, .date r _) :: rest => r :: payloadRefs rest
  | _ :: rest => payloadRefs rest

/-- A subscriber callback: runs on the payload and either returns or
throws (`Except.error`). -/
abbrev Callback := Payload → Except String Unit

/-- Outcome of one delivery: the `try { callback(...) } catch (error)`
wrapper (source lines 152-158) reports a thrown error and carries on. -/
inductive CbOutcome where
  | ok
  | caught (msg : String)
deriving DecidableEq, Repr

/-- One guarded callback invocation. -/
def runCb (cb : Callback) (p : Payload) : CbOutcome :=
  match cb p with
  | .ok _ => .ok
  | .error e => .caught e

/-- `on(event, callback)` (source lines 133-138): append-only
registration. -/
def onModel (events : List (String × List Callback)) (name : String) (cb : Callback) :
    List (String × List Callback) :=
  match events with
  | [] => [(name, [cb])]
  | (k, cbs) :: rest =>
    if k = name then (k, cbs ++ [cb]) :: rest else (k, cbs) :: onModel rest name cb

/-- `emit(event, data)` (source lines 140-160): if the event has
subscribers, sanitize the payload once and invoke every subscriber in
registration order under a per-subscriber `try`/`catch`.  The result lists
each delivery's outcome; `emit` itself always returns normally. -/
def emitModel (events : List (String × List Callback)) (name : String)
    (fresh : ℕ) (data : Payload) : List CbOutcome :=
  match events.lookup name with
  | none => []
  | some cbs =>
    let sanitized := sanitizePayload fresh data
    cbs.map (fun cb => runCb cb sanitized)

/-! ### Calendar arithmetic lemmas -/

theorem daysInYear_bounds (y : ℤ) : 365 ≤ daysInYear y ∧ daysInYear y ≤ 366 := by
  unfold daysInYear; split <;> omega

theorem daysInMonthJS_bounds (y m : ℤ) :
    28 ≤ daysInMonthJS y m ∧ daysInMonthJS y m ≤ 31 := by
  unfold daysInMonthJS; split
  · split <;> omega
  · split <;> omega

theorem daysBeforeMonth_zero (y : ℤ) : daysBeforeMonth y 0 = 0 := rfl

theorem daysBeforeMonth_step (y m : ℤ) (hm : 0 ≤ m) :
    daysBeforeMonth y (m + 1) = daysBeforeMonth y m + daysInMonthJS y m := by
  unfold daysBeforeMonth
  have h1 : (m + 1).toNat = m.toNat + 1 := by omega
  rw [h1, daysBeforeMonthAux]
  have h2 : (m.toNat : ℤ) = m := by omega
  rw [h2]

theorem daysBeforeMonth_twelve (y : ℤ) : daysBeforeMonth y 12 = daysInYear y := by
  show daysBeforeMonthAux y (12 : ℤ).toNat = daysInYear y
  simp only [daysBeforeMonthAux, daysInMonthJS, daysInYear]
  norm_num
  cases h : isLeap y <;> simp [h]

theorem daysBeforeMonth_nonneg (y m : ℤ) : 0 ≤ daysBeforeMonth y m := by
  unfold daysBeforeMonth
  induction m.toNat with
  | zero => simp [daysBeforeMonthAux]
  | succ n ih =>
    rw [daysBeforeMonthAux]
    have := daysInMonthJS_bounds y (n : ℤ)
    omega

theorem daysBeforeMonth_mono (y m₁ m₂ : ℤ) (h0 : 0 ≤ m₁) (h : m₁ < m₂) :
    daysBeforeMonth y m₁ + daysInMonthJS y m₁ ≤ daysBeforeMonth y m₂ := by
  have key : ∀ n : ℕ, (m₁ + 1 : ℤ) + n ≤ m₂ →
      daysBeforeMonth y m₁ + daysInMonthJS y m₁ ≤ daysBeforeMonth y (m₁ + 1 + n) := by
    intro n
    induction n with
    | zero =>
      intro _
      rw [show m₁ + 1 + (0 : ℕ) = m₁ + 1 by push_cast; ring, daysBeforeMonth_step y m₁ h0]
    | succ k ih =>
      intro hk
      have h1 : m₁ + 1 + ((k : ℤ) + 1) = (m₁ + 1 + k) + 1 := by ring
      push_cast
      push_cast at ih hk
      rw [h1, daysBeforeMonth_step y (m₁ + 1 + k) (by omega)]
      have := daysInMonthJS_bounds y (m₁ + 1 + k)
      have := ih (by omega)
      omega
  have hn : ∃ n : ℕ, m₂ = m₁ + 1 + n := ⟨(m₂ - m₁ - 1).toNat, by omega⟩
  obtain ⟨n, hn⟩ := hn
  rw [hn]
  exact key n (by omega)

theorem daysBeforeYear_epoch : daysBeforeYear 1970 = 0 := rfl

theorem daysBeforeYear_step (y : ℤ) :
    daysBeforeYear (y + 1) = daysBeforeYear y + daysInYear y := by
  unfold daysBeforeYear
  split_ifs with h1 h2 h2
  · have ha : (y + 1 - 1970).toNat = (y - 1970).toNat + 1 := by omega
    rw [ha, daysUpAux]
    have hb : (1970 : ℤ) + ((y - 1970).toNat : ℤ) = y := by omega
    rw [hb]
  · have hy : y = 1969 := by omega
    subst hy
    decide
  · omega
  · have ha : (1970 - y).toNat = (1970 - (y + 1)).toNat + 1 := by omega
    rw [ha, daysDownAux]
    have hb : (1969 : ℤ) - ((1970 - (y + 1)).toNat : ℤ) = y := by omega
    rw [hb]
    ring

theorem daysBeforeYear_mono (a b : ℤ) (h : a < b) :
    daysBeforeYear a + daysInYear a ≤ daysBeforeYear b := by
  have key : ∀ n : ℕ, (a + 1 : ℤ) + n ≤ b →
      daysBeforeYear a + daysInYear a ≤ daysBeforeYear (a + 1 + n) := by
    intro n
    induction n with
    | zero =>
      intro _
      rw [show a + 1 + (0 : ℕ) = a + 1 by push_cast; ring, daysBeforeYear_step]
    | succ k ih =>
      intro hk
      push_cast
      push_cast at ih hk
      rw [show a + 1 + ((k : ℤ) + 1) = (a + 1 + k) + 1 by ring, daysBeforeYear_step]
      have := daysInYear_bounds (a + 1 + k)
      have := ih (by omega)
      omega
  have hn : ∃ n : ℕ, b = a + 1 + n := ⟨(b - a - 1).toNat, by omega⟩
  obtain ⟨n, hn⟩ := hn
  rw [hn]
  exact key n (by omega)

theorem yearUpF_spec (f : ℕ) : ∀ (y z : ℤ), 0 ≤ z → z < (f : ℤ) →
    daysBeforeYear (yearUpF f y z).1 + (yearUpF f y z).2 = daysBeforeYear y + z ∧
    0 ≤ (yearUpF f y z).2 ∧ (yearUpF f y z).2 < daysInYear (yearUpF f y z).1 := by
  induction f with
  | zero => intro y z h0 hf; norm_num at hf; omega
  | succ f ih =>
    intro y z h0 hf
    rw [yearUpF]
    split_ifs with h
    · exact ⟨rfl, h0, h⟩
    · have hy := daysInYear_bounds y
      have h1 : 0 ≤ z - daysInYear y := by omega
      have h2 : z - daysInYear y < (f : ℤ) := by push_cast at hf; omega
      have := ih (y + 1) (z - daysInYear y) h1 h2
      rw [daysBeforeYear_step] at this
      exact ⟨by omega, this.2⟩

theorem yearDownF_spec (f : ℕ) : ∀ (y z : ℤ), z < daysInYear y → -z < (f : ℤ) →
    daysBeforeYear (yearDownF f y z).1 + (yearDownF f y z).2 = daysBeforeYear y + z ∧
    0 ≤ (yearDownF f y z).2 ∧ (yearDownF f y z).2 < daysInYear (yearDownF f y z).1 := by
  induction f with
  | zero =>
    intro y z hz hf
    norm_num at hf
    exact ⟨rfl, by show (0 : ℤ) ≤ z; omega, hz⟩
  | succ f ih =>
    intro y z hz hf
    rw [yearDownF]
    split_ifs with h
    · exact ⟨rfl, h, hz⟩
    · have hy := daysInYear_bounds (y - 1)
      have h1 : z + daysInYear (y - 1) < daysInYear (y - 1) := by omega
      have h2 : -(z + daysInYear (y - 1)) < (f : ℤ) := by push_cast at hf; omega
      have := ih (y - 1) (z + daysInYear (y - 1)) h1 h2
      have hstep : daysBeforeYear y = daysBeforeYear (y - 1) + daysInYear (y - 1) := by
        have := daysBeforeYear_step (y - 1)
        rw [show y - 1 + 1 = y by ring] at this
        exact this
      exact ⟨by omega, this.2⟩

theorem monthUpF_spec (f : ℕ) : ∀ (y m z : ℤ), 0 ≤ m → 0 ≤ z →
    z + daysBeforeMonth y m < daysBeforeMonth y (m + f) →
    daysBeforeMonth y (monthUpF f y m z).1 + (monthUpF f y m z).2 =
      daysBeforeMonth y m + z ∧
    0 ≤ (monthUpF f y m z).2 ∧
    (monthUpF f y m z).2 < daysInMonthJS y (monthUpF f y m z).1 ∧
    m ≤ (monthUpF f y m z).1 ∧ (monthUpF f y m z).1 < m + f := by
  induction f with
  | zero =>
    intro y m z hm h0 hbound
    norm_num at hbound
    omega
  | succ f ih =>
    intro y m z hm h0 hbound
    rw [monthUpF]
    split_ifs with h
    · exact ⟨rfl, h0, h, le_refl m, by push_cast; omega⟩
    · have hd := daysInMonthJS_bounds y m
      have h1 : 0 ≤ z - daysInMonthJS y m := by omega
      have h2 : (z - daysInMonthJS y m) + daysBeforeMonth y (m + 1) <
          daysBeforeMonth y ((m + 1) + f) := by
        rw [daysBeforeMonth_step y m hm]
        rw [show (m + 1) + (f : ℤ) = m + ((f : ℕ) + 1 : ℤ) by ring]
        push_cast at hbound
        omega
      have := ih y (m + 1) (z - daysInMonthJS y m) (by omega) h1 h2
      rw [daysBeforeMonth_step y m hm] at this
      refine ⟨by omega, this.2.1, this.2.2.1, by omega, ?_⟩
      have := this.2.2.2.2
      push_cast
      push_cast at this
      omega

theorem toCivilYear_spec (z : ℤ) :
    daysBeforeYear (toCivilYear z).1 + (toCivilYear z).2 = z ∧
    0 ≤ (toCivilYear z).2 ∧ (toCivilYear z).2 < daysInYear (toCivilYear z).1 := by
  unfold toCivilYear
  split_ifs with h0
  · have h1 : z < ((z.toNat + 1 : ℕ) : ℤ) := by push_cast; omega
    have := yearUpF_spec (z.toNat + 1) 1970 z h0 h1
    rw [daysBeforeYear_epoch] at this
    exact ⟨by omega, this.2⟩
  · have hz : z < daysInYear 1970 := by
      have := daysInYear_bounds 1970
      omega
    have h1 : -z < (((-z).toNat + 1 : ℕ) : ℤ) := by push_cast; omega
    have := yearDownF_spec ((-z).toNat + 1) 1970 z hz h1
    rw [daysBeforeYear_epoch] at this
    exact ⟨by omega, this.2⟩

theorem toCivil_spec (z : ℤ) :
    epochFromCivil (yearOf z) (monthOf z) (dayOf z) = z ∧
    0 ≤ monthOf z ∧ monthOf z < 12 ∧
    1 ≤ dayOf z ∧ dayOf z ≤ daysInMonthJS (yearOf z) (monthOf z) := by
  obtain ⟨hp1, hp2, hp3⟩ := toCivilYear_spec z
  have hbound : (toCivilYear z).2 + daysBeforeMonth (toCivilYear z).1 0 <
      daysBeforeMonth (toCivilYear z).1 (0 + (12 : ℕ)) := by
    rw [daysBeforeMonth_zero]
    rw [show ((0 : ℤ) + ((12 : ℕ) : ℤ)) = 12 by norm_num]
    rw [daysBeforeMonth_twelve]
    omega
  have hq := monthUpF_spec 12 (toCivilYear z).1 0 (toCivilYear z).2 le_rfl hp2 hbound
  rw [daysBeforeMonth_zero] at hq
  obtain ⟨hq1, hq2, hq3, hq4, hq5⟩ := hq
  have h12 : ((12 : ℕ) : ℤ) = 12 := by norm_num
  rw [h12] at hq5
  show epochFromCivil (toCivil z).1 (toCivil z).2.1 (toCivil z).2.2 = z ∧
    0 ≤ (toCivil z).2.1 ∧ (toCivil z).2.1 < 12 ∧
    1 ≤ (toCivil z).2.2 ∧ (toCivil z).2.2 ≤ daysInMonthJS (toCivil z).1 (toCivil z).2.1
  simp only [toCivil]
  refine ⟨?_, by omega, by omega, by omega, by omega⟩
  simp only [epochFromCivil]
  omega

theorem civilYear_unique (y₁ r₁ y₂ r₂ : ℤ)
    (h : daysBeforeYear y₁ + r₁ = daysBeforeYear y₂ + r₂)
    (h₁ : 0 ≤ r₁) (h₁' : r₁ < daysInYear y₁)
    (h₂ : 0 ≤ r₂) (h₂' : r₂ < daysInYear y₂) : y₁ = y₂ ∧ r₁ = r₂ := by
  rcases lt_trichotomy y₁ y₂ with hlt | heq | hgt
  · have := daysBeforeYear_mono y₁ y₂ hlt
    omega
  · subst heq
    omega
  · have := daysBeforeYear_mono y₂ y₁ hgt
    omega

theorem civilMonth_unique (y m₁ r₁ m₂ r₂ : ℤ)
    (h : daysBeforeMonth y m₁ + r₁ = daysBeforeMonth y m₂ + r₂)
    (hm₁ : 0 ≤ m₁) (hm₂ : 0 ≤ m₂)
    (h₁ : 0 ≤ r₁) (h₁' : r₁ < daysInMonthJS y m₁)
    (h₂ : 0 ≤ r₂) (h₂' : r₂ < daysInMonthJS y m₂) : m₁ = m₂ ∧ r₁ = r₂ := by
  rcases lt_trichotomy m₁ m₂ with hlt | heq | hgt
  · have := daysBeforeMonth_mono y m₁ m₂ hm₁ hlt
    omega
  · subst heq
    omega
  · have := daysBeforeMonth_mono y m₂ m₁ hm₂ hgt
    omega

/-- The civil round trip: `toCivil` is a left inverse of `epochFromCivil`
on valid civil dates. -/
theorem toCivil_epochFromCivil (y m d : ℤ) (hm : 0 ≤ m) (hm' : m < 12)
    (hd : 1 ≤ d) (hd' : d ≤ daysInMonthJS y m) :
    toCivil (epochFromCivil y m d) = (y, m, d) := by
  set z := epochFromCivil y m d with hz
  obtain ⟨he, hM0, hM1, hD0, hD1⟩ := toCivil_spec z
  have hdim : daysBeforeMonth y m + daysInMonthJS y m ≤ daysInYear y := by
    rcases eq_or_lt_of_le (by omega : m + 1 ≤ 12) with h12 | h12
    · rw [← daysBeforeMonth_twelve, ← h12, daysBeforeMonth_step y m hm]
    · have := daysBeforeMonth_mono y (m + 1) 12 (by omega) (by omega)
      rw [daysBeforeMonth_step y m hm] at this
      rw [← daysBeforeMonth_twelve]
      have := daysInMonthJS_bounds y (m + 1)
      have := daysBeforeMonth_nonneg y (m + 1)
      omega
  have hdimC : daysBeforeMonth (yearOf z) (monthOf z) + daysInMonthJS (yearOf z) (monthOf z) ≤
      daysInYear (yearOf z) := by
    rcases eq_or_lt_of_le (by omega : monthOf z + 1 ≤ 12) with h12 | h12
    · rw [← daysBeforeMonth_twelve, ← h12, daysBeforeMonth_step _ _ hM0]
    · have := daysBeforeMonth_mono (yearOf z) (monthOf z + 1) 12 (by omega) (by omega)
      rw [daysBeforeMonth_step _ _ hM0] at this
      rw [← daysBeforeMonth_twelve]
      have := daysInMonthJS_bounds (yearOf z) (monthOf z + 1)
      have := daysBeforeMonth_nonneg (yearOf z) (monthOf z + 1)
      omega
  have hnn := daysBeforeMonth_nonneg y m
  have hnnC := daysBeforeMonth_nonneg (yearOf z) (monthOf z)
  have heq : daysBeforeYear (yearOf z) + (daysBeforeMonth (yearOf z) (monthOf z) + (dayOf z - 1)) =
      daysBeforeYear y + (daysBeforeMonth y m + (d - 1)) := by
    have : epochFromCivil (yearOf z) (monthOf z) (dayOf z) = epochFromCivil y m d := by
      rw [he, hz]
    simp only [epochFromCivil] at this
    omega
  have hyear := civilYear_unique (yearOf z) (daysBeforeMonth (yearOf z) (monthOf z) + (dayOf z - 1))
      y (daysBeforeMonth y m + (d - 1)) heq (by omega) (by omega) (by omega) (by omega)
  obtain ⟨hy, hr⟩ := hyear
  rw [hy] at hr
  have hmonth := civilMonth_unique y (monthOf z) (dayOf z - 1) m (d - 1)
      (by omega) hM0 hm (by omega) (by rw [← hy]; omega) (by omega) (by omega)
  have : toCivil z = (yearOf z, monthOf z, dayOf z) := rfl
  rw [this, hy]
  obtain ⟨hm2, hd2⟩ := hmonth
  rw [hm2]
  congr 2
  omega

/-! ### Week and month arithmetic on day numbers -/

theorem jsSetDate_eq (d n : ℤ) : jsSetDate d n = d - dayOf d + n := by
  have h := (toCivil_spec d).1
  simp only [jsSetDate, epochFromCivil] at *
  omega

theorem getStartOfWeek_eq (d : ℤ) :
    getStartOfWeek d = d - jsGetDay d + (if jsGetDay d = 0 then -6 else 1) := by
  simp only [getStartOfWeek, jsSetDate_eq]
  ring

theorem jsGetDay_bounds (d : ℤ) : 0 ≤ jsGetDay d ∧ jsGetDay d < 7 := by
  unfold jsGetDay
  exact ⟨Int.emod_nonneg _ (by norm_num), Int.emod_lt_of_pos _ (by norm_num)⟩

theorem getStartOfWeek_monday (d : ℤ) : jsGetDay (getStartOfWeek d) = 1 := by
  rw [getStartOfWeek_eq]
  unfold jsGetDay
  split_ifs with h <;> omega

theorem getStartOfWeek_span (d : ℤ) :
    getStartOfWeek d ≤ d ∧ d ≤ getStartOfWeek d + 6 := by
  rw [getStartOfWeek_eq]
  have := jsGetDay_bounds d
  split_ifs with h <;> omega

theorem getStartOfWeek_idem (d : ℤ) (h : jsGetDay d = 1) : getStartOfWeek d = d := by
  rw [getStartOfWeek_eq, h]
  norm_num

theorem fdiv_emod_small (m : ℤ) (h0 : 0 ≤ m) (h1 : m < 12) :
    Int.fdiv m 12 = 0 ∧ Int.emod m 12 = m := by
  constructor
  · interval_cases m <;> decide
  · interval_cases m <;> decide

theorem jsMakeDate_eq (y m d : ℤ) (h0 : 0 ≤ m) (h1 : m < 12) :
    jsMakeDate y m d = epochFromCivil y m d := by
  obtain ⟨hf, he⟩ := fdiv_emod_small m h0 h1
  simp only [jsMakeDate, hf, he, add_zero]

theorem jsMakeDate_endOfMonth (y m : ℤ) (h0 : 0 ≤ m) (h1 : m < 12) :
    jsMakeDate y (m + 1) 0 = epochFromCivil y m 1 + daysInMonthJS y m - 1 := by
  by_cases h : m = 11
  · subst h
    have hstep := daysBeforeMonth_step y 11 (by norm_num)
    norm_num at hstep
    have htw := daysBeforeMonth_twelve y
    have hy := daysBeforeYear_step y
    have h31 : daysInMonthJS y 11 = 31 := by norm_num [daysInMonthJS]
    simp only [jsMakeDate, show (11 : ℤ) + 1 = 12 by norm_num,
      show Int.fdiv (12 : ℤ) 12 = 1 by decide, show Int.emod (12 : ℤ) 12 = 0 by decide,
      epochFromCivil, daysBeforeMonth_zero]
    omega
  · have h2 : m + 1 < 12 := by omega
    rw [jsMakeDate_eq y (m + 1) 0 (by omega) h2]
    simp only [epochFromCivil]
    have := daysBeforeMonth_step y m h0
    omega

/-! ### Claim theorems -/

/-- A concrete engine state used to witness the claims: Range mode over
the bounds 2024-01-01 … 2025-12-31 (day numbers 19723 … 20453). -/
def sampleState : CalState :=
  { type := .rango
    minDays := 1
    maxDays := 30
    startDate := none
    endDate := none
    minDate := epochFromCivil 2024 0 1
    maxDate := epochFromCivil 2025 11 31
    dateFormat := "YYYY-MM-DD"
    disabledDates := []
    disableWeekends := false
    dateSeparator := " - "
    fechaVacia := true
    placeholder := "Selecciona una fecha"
    selectedDates := []
    currentMonth := 0
    currentYear := 2024 }

/-- C1: for every date outside `[minDate, maxDate]`, `selectDate` in any
mode is a no-op — the whole state (hence `selectedDates`, `startDate`,
`endDate`) is unchanged and no event is emitted. -/
theorem c1_out_of_bounds_selectDate_noop (s : CalState) (d : ℤ)
    (h : d < s.minDate ∨ d > s.maxDate) :
    selectDate s d = (s, []) := by
  unfold selectDate
  rw [if_pos h]

theorem c1_out_of_bounds_selectDate_noop_witness :
    ((19722 : ℤ) < sampleState.minDate ∨ (19722 : ℤ) > sampleState.maxDate) ∧
    selectDate sampleState 19722 = (sampleState, []) :=
  ⟨by decide, c1_out_of_bounds_selectDate_noop sampleState 19722 (by decide)⟩

/-- C2: in Range mode with exactly one pending anchor `A`, selecting an
in-bounds `B` with `A ≤ B` commits the range: `selectedDates` becomes the
ascending pair `[A, B]`, `startDate = A`, `endDate = B`, and exactly one
`rangeSelected` event with payload `(A, B)` is emitted. -/
theorem c2_range_commit (s : CalState) (A B : ℤ) (hty : s.type = .rango)
    (hsel : s.selectedDates = [A]) (hAB : A ≤ B)
    (hlo : s.minDate ≤ B) (hhi : B ≤ s.maxDate) :
    (selectDate s B).1.selectedDates = [A, B] ∧
    (selectDate s B).1.startDate = some A ∧
    (selectDate s B).1.endDate = some B ∧
    (selectDate s B).2 = [CalEvent.rangeSelected (some A) (some B)] := by
  have hguard : ¬(B < s.minDate ∨ B > s.maxDate) := by omega
  have hsort : sortByTime ([A] ++ [B]) = [A, B] := by
    simp [sortByTime, insertByTime, hAB]
  simp only [selectDate, hty, hsel]
  rw [if_neg hguard]
  simp only [List.length_cons, List.length_nil, List.headI]
  rw [if_neg (by norm_num), if_neg (by omega : ¬B < A), hsort]
  simp

theorem c2_range_commit_witness :
    sampleState.type = .rango ∧ (19800 : ℤ) ≤ 19810 ∧
    (selectDate { sampleState with selectedDates := [19800] } 19810).1.selectedDates =
      [19800, 19810] ∧
    (selectDate { sampleState with selectedDates := [19800] } 19810).2 =
      [CalEvent.rangeSelected (some 19800) (some 19810)] := by
  have h := c2_range_commit { sampleState with selectedDates := [19800] } 19800 19810
    (by decide) (by decide) (by decide) (by decide) (by decide)
  exact ⟨rfl, by decide, h.1, h.2.2.2⟩

/-- C3: in Range mode with exactly one pending anchor `A`, selecting a
`B < A` is rejected atomically: `selectedDates` stays `[A]`, `startDate`
stays `A`, `endDate` stays `null`, and no event is emitted. -/
theorem c3_range_reject_end_before_start (s : CalState) (A B : ℤ)
    (hty : s.type = .rango) (hsel : s.selectedDates = [A])
    (hstart : s.startDate = some A) (hend : s.endDate = none) (hBA : B < A) :
    selectDate s B = (s, []) ∧
    (selectDate s B).1.selectedDates = [A] ∧
    (selectDate s B).1.startDate = some A ∧
    (selectDate s B).1.endDate = none := by
  have hmain : selectDate s B = (s, []) := by
    by_cases hg : B < s.minDate ∨ B > s.maxDate
    · unfold selectDate
      rw [if_pos hg]
    · simp only [selectDate, hty, hsel, List.length_cons, List.length_nil, List.headI]
      rw [if_neg hg, if_neg (by norm_num), if_pos hBA]
  exact ⟨hmain, by rw [hmain]; exact hsel, by rw [hmain]; exact hstart,
    by rw [hmain]; exact hend⟩

theorem c3_range_reject_end_before_start_witness :
    (19790 : ℤ) < 19800 ∧
    selectDate { sampleState with selectedDates := [19800], startDate := some 19800 } 19790 =
      ({ sampleState with selectedDates := [19800], startDate := some 19800 }, []) := by
  have h := c3_range_reject_end_before_start
    { sampleState with selectedDates := [19800], startDate := some 19800 }
    19800 19790 (by decide) (by decide) (by decide) (by decide) (by decide)
  exact ⟨by decide, h.1⟩

/-- Spec notion: the first day of the month containing day `z`
(same year, same month, day-of-month 1). -/
def firstOfMonth (z : ℤ) : ℤ := epochFromCivil (yearOf z) (monthOf z) 1

/-- Spec notion: the last day of the month containing day `z`. -/
def lastOfMonth (z : ℤ) : ℤ :=
  firstOfMonth z + daysInMonthJS (yearOf z) (monthOf z) - 1

/-- C4: in Week mode, an in-bounds activation selects the 7-day inclusive
span starting at the Monday `M` with `M ≤ D ≤ M + 6`: `startDate = M`
(a Monday, JavaScript weekday 1), `endDate = M + 6`, and exactly one
`weekSelected` event with that pair is emitted. -/
theorem c4_week_selection (s : CalState) (D : ℤ) (hty : s.type = .semana)
    (hlo : s.minDate ≤ D) (hhi : D ≤ s.maxDate) :
    ∃ M, jsGetDay M = 1 ∧ M ≤ D ∧ D ≤ M + 6 ∧
      (selectDate s D).1.startDate = some M ∧
      (selectDate s D).1.endDate = some (M + 6) ∧
      (selectDate s D).1.selectedDates = [M, M + 6] ∧
      (selectDate s D).2 = [CalEvent.weekSelected (some M) (some (M + 6))] := by
  have hguard : ¬(D < s.minDate ∨ D > s.maxDate) := by omega
  have hred : selectDate s D =
      ({ s with selectedDates := [getStartOfWeek D, getStartOfWeek D + 6],
                startDate := some (getStartOfWeek D),
                endDate := some (getStartOfWeek D + 6) },
       [CalEvent.weekSelected (some (getStartOfWeek D)) (some (getStartOfWeek D + 6))]) := by
    simp only [selectDate, hty]
    rw [if_neg hguard]
    simp only [getEndOfWeek, getStartOfWeek_idem _ (getStartOfWeek_monday D)]
  exact ⟨getStartOfWeek D, getStartOfWeek_monday D, (getStartOfWeek_span D).1,
    (getStartOfWeek_span D).2, by rw [hred], by rw [hred], by rw [hred], by rw [hred]⟩

theorem c4_week_selection_witness :
    (∃ M, jsGetDay M = 1 ∧ M ≤ 20156 ∧ (20156 : ℤ) ≤ M + 6 ∧
      (selectDate { sampleState with type := .semana } 20156).1.startDate = some M ∧
      (selectDate { sampleState with type := .semana } 20156).1.endDate = some (M + 6) ∧
      (selectDate { sampleState with type := .semana } 20156).1.selectedDates = [M, M + 6] ∧
      (selectDate { sampleState with type := .semana } 20156).2 =
        [CalEvent.weekSelected (some M) (some (M + 6))]) ∧
    (selectDate { sampleState with type := .semana } 20156).1.startDate = some 20150 :=
  ⟨c4_week_selection { sampleState with type := .semana } 20156 rfl
    (by decide) (by decide), by decide⟩

/-- C5: in Month mode, an in-bounds activation selects from the first day
of `D`'s month to the last day of `D`'s month, the end clamped to
`maxDate` when the last day exceeds it, and emits exactly one
`monthSelected` event with that pair. -/
theorem c5_month_selection (s : CalState) (D : ℤ) (hty : s.type = .mes)
    (hlo : s.minDate ≤ D) (hhi : D ≤ s.maxDate) :
    (selectDate s D).1.startDate = some (firstOfMonth D) ∧
    toCivil (firstOfMonth D) = (yearOf D, monthOf D, 1) ∧
    (selectDate s D).1.endDate =
      some (if lastOfMonth D > s.maxDate then s.maxDate else lastOfMonth D) ∧
    toCivil (lastOfMonth D) =
      (yearOf D, monthOf D, daysInMonthJS (yearOf D) (monthOf D)) ∧
    (selectDate s D).1.selectedDates =
      [firstOfMonth D, if lastOfMonth D > s.maxDate then s.maxDate else lastOfMonth D] ∧
    (selectDate s D).2 =
      [CalEvent.monthSelected (some (firstOfMonth D))
        (some (if lastOfMonth D > s.maxDate then s.maxDate else lastOfMonth D))] := by
  obtain ⟨hinv, hm0, hm1, hd0, hd1⟩ := toCivil_spec D
  have hdim := daysInMonthJS_bounds (yearOf D) (monthOf D)
  have hstart : jsMakeDate (yearOf D) (monthOf D) 1 = firstOfMonth D := by
    rw [jsMakeDate_eq _ _ _ hm0 hm1]
    rfl
  have hend : jsMakeDate (yearOf D) (monthOf D + 1) 0 = lastOfMonth D := by
    rw [jsMakeDate_endOfMonth _ _ hm0 hm1]
    simp only [lastOfMonth, firstOfMonth]
  have hlast : lastOfMonth D =
      epochFromCivil (yearOf D) (monthOf D) (daysInMonthJS (yearOf D) (monthOf D)) := by
    simp only [lastOfMonth, firstOfMonth, epochFromCivil]
    ring
  have hguard : ¬(D < s.minDate ∨ D > s.maxDate) := by omega
  refine ⟨?_, toCivil_epochFromCivil _ _ _ hm0 hm1 le_rfl (by omega), ?_, ?_, ?_, ?_⟩
  · simp only [selectDate, hty]
    rw [if_neg hguard]
    simp [hstart]
  · simp only [selectDate, hty]
    rw [if_neg hguard]
    simp [hstart, hend]
  · rw [hlast]
    exact toCivil_epochFromCivil _ _ _ hm0 hm1 (by omega) le_rfl
  · simp only [selectDate, hty]
    rw [if_neg hguard]
    simp [hstart, hend]
  · simp only [selectDate, hty]
    rw [if_neg hguard]
    simp [hstart, hend]

theorem c5_month_selection_witness :
    ((selectDate { sampleState with type := .mes } 20156).1.startDate =
        some (firstOfMonth 20156) ∧
      toCivil (firstOfMonth 20156) = (yearOf 20156, monthOf 20156, 1) ∧
      (selectDate { sampleState with type := .mes } 20156).1.endDate =
        some (if lastOfMonth 20156 > ({ sampleState with type := .mes } : CalState).maxDate
              then ({ sampleState with type := .mes } : CalState).maxDate
              else lastOfMonth 20156) ∧
      toCivil (lastOfMonth 20156) =
        (yearOf 20156, monthOf 20156, daysInMonthJS (yearOf 20156) (monthOf 20156)) ∧
      (selectDate { sampleState with type := .mes } 20156).1.selectedDates =
        [firstOfMonth 20156,
         if lastOfMonth 20156 > ({ sampleState with type := .mes } : CalState).maxDate
         then ({ sampleState with type := .mes } : CalState).maxDate
         else lastOfMonth 20156] ∧
      (selectDate { sampleState with type := .mes } 20156).2 =
        [CalEvent.monthSelected (some (firstOfMonth 20156))
          (some (if lastOfMonth 20156 > ({ sampleState with type := .mes } : CalState).maxDate
                 then ({ sampleState with type := .mes } : CalState).maxDate
                 else lastOfMonth 20156))]) ∧
    (selectDate { sampleState with type := .mes } 20156).1.startDate = some 20148 ∧
    (selectDate { sampleState with type := .mes } 20156).1.endDate = some 20178 :=
  ⟨c5_month_selection { sampleState with type := .mes } 20156 rfl (by decide) (by decide),
   by decide, by decide⟩

/-- An option bag violating the range-length invariant (`minDays = 5`,
`maxDays = 3`). -/
def badOptions : CalOptions :=
  { type := .rango, minDays := some 5, maxDays := some 3,
    minDate := 0, maxDate := 100 }

/-- C6: constructing with `minDays > maxDays` (after defaulting), or with
a preset `startDate` or `endDate` outside `[minDate, maxDate]`, raises an
error that aborts construction — no instance (and no event) is
produced. -/
theorem c6_construction_fatal (o : CalOptions) (today : ℤ)
    (h : o.minDays.getD 1 > o.maxDays.getD 30 ∨
      presetOutOfBounds o.startDate o.minDate o.maxDate = true ∨
      presetOutOfBounds o.endDate o.minDate o.maxDate = true) :
    ∃ msg, mkRangeCalendar o today = Except.error msg := by
  simp only [mkRangeCalendar]
  split_ifs with h1 h2 h3
  · exact ⟨_, rfl⟩
  · exact ⟨_, rfl⟩
  · exact ⟨_, rfl⟩
  · rcases h with h | h | h
    · omega
    · exact absurd h h2
    · exact absurd h h3

theorem c6_construction_fatal_witness :
    (badOptions.minDays.getD 1 > badOptions.maxDays.getD 30 ∨
      presetOutOfBounds badOptions.startDate badOptions.minDate badOptions.maxDate = true ∨
      presetOutOfBounds badOptions.endDate badOptions.minDate badOptions.maxDate = true) ∧
    ∃ msg, mkRangeCalendar badOptions 0 = Except.error msg :=
  ⟨by decide, c6_construction_fatal badOptions 0 (by decide)⟩

/-- C7: `formatDate` produces the exact literal pattern for each of the 5
supported format strings — at 2025-03-09, `DD MMM YYYY` gives
"09 Mar 2025" and `YYYY/MM/DD` gives "2025/03/09" — and every format
string outside the enumerated set falls back to the `YYYY-MM-DD`
output. -/
theorem c7_formatDate_patterns :
    formatDate (epochFromCivil 2025 2 9) "DD MMM YYYY" = "09 Mar 2025" ∧
    formatDate (epochFromCivil 2025 2 9) "YYYY-MM-DD" = "2025-03-09" ∧
    formatDate (epochFromCivil 2025 2 9) "DD/MM/YYYY" = "09/03/2025" ∧
    formatDate (epochFromCivil 2025 2 9) "MM/DD/YYYY" = "03/09/2025" ∧
    formatDate (epochFromCivil 2025 2 9) "YYYY/MM/DD" = "2025/03/09" ∧
    ∀ (d : ℤ) (fmt : String), fmt ≠ "DD MMM YYYY" → fmt ≠ "YYYY-MM-DD" →
      fmt ≠ "DD/MM/YYYY" → fmt ≠ "MM/DD/YYYY" → fmt ≠ "YYYY/MM/DD" →
      formatDate d fmt = formatDate d "YYYY-MM-DD" := by
  refine ⟨by decide, by decide, by decide, by decide, by decide, ?_⟩
  intro d fmt h1 h2 h3 h4 h5
  simp only [formatDate]
  rw [if_neg h1, if_neg h2, if_neg h3, if_neg h4, if_neg h5,
    if_neg (by decide : ¬("YYYY-MM-DD" = "DD MMM YYYY"))]
  simp

theorem c7_formatDate_patterns_witness :
    formatDate (epochFromCivil 2025 2 9) "MMMM" =
      formatDate (epochFromCivil 2025 2 9) "YYYY-MM-DD" ∧
    formatDate (epochFromCivil 2025 2 9) "MMMM" = "2025-03-09" :=
  ⟨c7_formatDate_patterns.2.2.2.2.2 _ "MMMM"
      (by decide) (by decide) (by decide) (by decide) (by decide),
   by decide⟩

/-- C8: `navigate(+1)` and `navigate(-1)` step `currentYear` by ±1 in
Month mode; in every other mode they step `currentMonth`, month 11
stepping to 0 with the year incremented and month 0 stepping to 11 with
the year decremented; in all cases `selectedDates`, `startDate` and
`endDate` are unchanged. -/
theorem c8_navigate (s : CalState)
    (hm0 : 0 ≤ s.currentMonth) (hm1 : s.currentMonth ≤ 11) :
    (s.type = .mes →
      (navigate s 1).1.currentYear = s.currentYear + 1 ∧
      (navigate s 1).1.currentMonth = s.currentMonth ∧
      (navigate s (-1)).1.currentYear = s.currentYear - 1 ∧
      (navigate s (-1)).1.currentMonth = s.currentMonth) ∧
    (s.type ≠ .mes →
      (navigate s 1).1.currentMonth = (if s.currentMonth = 11 then 0 else s.currentMonth + 1) ∧
      (navigate s 1).1.currentYear =
        (if s.currentMonth = 11 then s.currentYear + 1 else s.currentYear) ∧
      (navigate s (-1)).1.currentMonth =
        (if s.currentMonth = 0 then 11 else s.currentMonth - 1) ∧
      (navigate s (-1)).1.currentYear =
        (if s.currentMonth = 0 then s.currentYear - 1 else s.currentYear)) ∧
    (∀ offset : ℤ, (navigate s offset).1.selectedDates = s.selectedDates ∧
      (navigate s offset).1.startDate = s.startDate ∧
      (navigate s offset).1.endDate = s.endDate) := by
  refine ⟨?_, ?_, ?_⟩
  · intro hmes
    simp only [navigate, if_pos hmes, changeYear]
    refine ⟨?_, ?_, ?_, ?_⟩ <;> trivial
  · intro hmes
    simp only [navigate, if_neg hmes, changeMonth]
    refine ⟨?_, ?_, ?_, ?_⟩ <;> split_ifs <;> (try simp_all) <;> omega
  · intro offset
    simp only [navigate, changeMonth, changeYear]
    split_ifs <;> simp

theorem c8_navigate_witness :
    (navigate sampleState 1).1.currentMonth = 1 ∧
    (navigate sampleState (-1)).1.currentMonth = 11 ∧
    (navigate sampleState (-1)).1.currentYear = 2023 ∧
    (navigate sampleState 5).1.selectedDates = sampleState.selectedDates := by
  have h := c8_navigate sampleState (by decide) (by decide)
  exact ⟨by decide, by decide, by decide, (h.2.2 5).1⟩

/-- Every `Date` reference in a sanitized payload is a fresh allocation
(reference `≥ fresh`). -/
theorem sanitizeFields_refs (fresh : ℕ) :
    ∀ (l : Payload) (i : ℕ) (r : ℕ), r ∈ payloadRefs (sanitizeFields fresh i l) → fresh ≤ r := by
  intro l
  induction l with
  | nil =>
    intro i r hr
    simp [sanitizeFields, payloadRefs] at hr
  | cons kv rest ih =>
    intro i r hr
    obtain ⟨k, v⟩ := kv
    by_cases hk : k = "startDate" ∨ k = "endDate"
    · cases v with
      | date ref t =>
        simp only [sanitizeFields, if_pos hk, payloadRefs] at hr
        rcases List.mem_cons.mp hr with h | h
        · omega
        · exact ih (i + 1) r h
      | str sv =>
        simp only [sanitizeFields, if_pos hk, jsonRoundTrip, payloadRefs] at hr
        exact ih (i + 1) r hr
      | nullv =>
        simp only [sanitizeFields, if_pos hk, jsonRoundTrip, payloadRefs] at hr
        exact ih (i + 1) r hr
    · cases v with
      | date ref t =>
        simp only [sanitizeFields, if_neg hk, jsonRoundTrip, payloadRefs] at hr
        exact ih (i + 1) r hr
      | str sv =>
        simp only [sanitizeFields, if_neg hk, jsonRoundTrip, payloadRefs] at hr
        exact ih (i + 1) r hr
      | nullv =>
        simp only [sanitizeFields, if_neg hk, jsonRoundTrip, payloadRefs] at hr
        exact ih (i + 1) r hr

/-- C9: `emit` sanitizes the payload once before delivery — every `Date`
object the callbacks receive is a fresh allocation, never one of the
engine's or caller's (whose references are `< fresh`) — and then invokes
every subscriber in subscription order under a per-subscriber catch, so
one subscriber's exception stops neither the remaining subscribers nor
`emit` itself (the outcome list is total, one entry per subscriber). -/
theorem c9_emit_sanitize_order_catch (events : List (String × List Callback))
    (name : String) (fresh : ℕ) (data : Payload) (cbs : List Callback)
    (hsub : events.lookup name = some cbs) :
    emitModel events name fresh data =
      cbs.map (fun cb => runCb cb (sanitizePayload fresh data)) ∧
    (emitModel events name fresh data).length = cbs.length ∧
    (∀ r ∈ payloadRefs (sanitizePayload fresh data), fresh ≤ r) ∧
    (∀ r ∈ payloadRefs data, r < fresh →
      ∀ r' ∈ payloadRefs (sanitizePayload fresh data), r ≠ r') := by
  have hmap : emitModel events name fresh data =
      cbs.map (fun cb => runCb cb (sanitizePayload fresh data)) := by
    simp only [emitModel, hsub]
  refine ⟨hmap, by rw [hmap, List.length_map], ?_, ?_⟩
  · intro r hr
    exact sanitizeFields_refs fresh data 0 r hr
  · intro r _ hlt r' hr'
    have := sanitizeFields_refs fresh data 0 r' hr'
    omega

/-- A subscriber that throws. -/
def cbThrow : Callback := fun _ => Except.error "boom"

/-- A subscriber that returns normally. -/
def cbNote : Callback := fun _ => Except.ok ()

/-- A registry with two subscribers to `rangeSelected`. -/
def sampleEvents : List (String × List Callback) :=
  [("rangeSelected", [cbThrow, cbNote])]

/-- A `rangeSelected` payload holding an engine-held `Date` (reference 3,
time 20089 = 2025-01-01) and a null `endDate`. -/
def samplePayload : Payload :=
  [("startDate", JsVal.date 3 20089), ("endDate", JsVal.nullv)]

theorem c9_emit_sanitize_order_catch_witness :
    sampleEvents.lookup "rangeSelected" = some [cbThrow, cbNote] ∧
    (emitModel sampleEvents "rangeSelected" 10 samplePayload =
        [cbThrow, cbNote].map (fun cb => runCb cb (sanitizePayload 10 samplePayload)) ∧
      (emitModel sampleEvents "rangeSelected" 10 samplePayload).length =
        ([cbThrow, cbNote] : List Callback).length ∧
      (∀ r ∈ payloadRefs (sanitizePayload 10 samplePayload), 10 ≤ r) ∧
      (∀ r ∈ payloadRefs samplePayload, r < 10 →
        ∀ r' ∈ payloadRefs (sanitizePayload 10 samplePayload), r ≠ r')) ∧
    emitModel sampleEvents "rangeSelected" 10 samplePayload =
      [CbOutcome.caught "boom", CbOutcome.ok] ∧
    payloadRefs (sanitizePayload 10 samplePayload) = [10] ∧
    payloadRefs samplePayload = [3] :=
  ⟨rfl,
   c9_emit_sanitize_order_catch sampleEvents "rangeSelected" 10 samplePayload
     [cbThrow, cbNote] rfl,
   rfl, by decide, by decide⟩

/-- A committed-range state used to witness C10. -/
def clearedSample : CalState :=
  { sampleState with
    startDate := some 19800
    endDate := some 19810
    selectedDates := [19800, 19810] }

/-- C10: `clearSelection` resets `selectedDates` to the empty array, so a
subsequent `getSelectedDates` returns both fields null; but the
`startDate` / `endDate` fields themselves are untouched, so the
highlight-class computation is unchanged and still marks the previously
committed selection. -/
theorem c10_clearSelection_keeps_highlight (s : CalState) :
    (clearSelection s).1.selectedDates = [] ∧
    getSelectedDates (clearSelection s).1 = (none, none) ∧
    (clearSelection s).1.startDate = s.startDate ∧
    (clearSelection s).1.endDate = s.endDate ∧
    (∀ d : ℤ, highlightClass (clearSelection s).1 d = highlightClass s d) ∧
    (s.type ≠ .mes → ∀ sd : ℤ, s.startDate = some sd →
      highlightClass (clearSelection s).1 sd = some "highlight-start") := by
  refine ⟨rfl, by simp [getSelectedDates, clearSelection], rfl, rfl,
    fun d => rfl, ?_⟩
  intro hmes sd hsd
  have h1 : highlightClass (clearSelection s).1 sd = highlightClass s sd := rfl
  rw [h1]
  cases htyc : s.type
  · simp [highlightClass, hsd, htyc]
  · simp [highlightClass, hsd, htyc]
  · simp [highlightClass, hsd, htyc]
  · exact absurd htyc hmes

theorem c10_clearSelection_keeps_highlight_witness :
    (clearSelection clearedSample).1.selectedDates = [] ∧
    getSelectedDates (clearSelection clearedSample).1 = (none, none) ∧
    (clearSelection clearedSample).1.startDate = some 19800 ∧
    (clearSelection clearedSample).1.endDate = some 19810 ∧
    highlightClass (clearSelection clearedSample).1 19800 = some "highlight-start" ∧
    highlightClass (clearSelection clearedSample).1 19805 = some "highlight-range" ∧
    highlightClass (clearSelection clearedSample).1 19810 = some "highlight-end" := by
  have h := c10_clearSelection_keeps_highlight clearedSample
  exact ⟨h.1, h.2.1, by decide, by decide,
    h.2.2.2.2.2 (by decide) 19800 rfl, by decide, by decide⟩
